import Mathlib

/-!
Verification of the pgtemp repository against its natural-language
specification.  The visible source is the diesel/axum usage example
(`src/examples/diesel-axum.rs`); the instance-provisioner core described by
the spec is not part of the visible sources, so its operations are modelled
from the spec's words (each such definition says so in its doc comment).
-/

namespace Pgtemp

/-! ## The diesel-axum example (`src/examples/diesel-axum.rs`)

The `tasks` table has columns `id -> Int4` (serial primary key) and
`task -> Text`.  We embed the table as the ordered list of its rows together
with the serial counter for `id`. -/

/-- A row of the `tasks` table: `id -> Int4, task -> Text`. -/
structure Task where
  id : Nat
  task : String
deriving DecidableEq

/-- The `tasks` table: rows in load (insertion) order plus the serial
counter backing the `id` column. -/
structure TasksTable where
  nextId : Nat
  rows : List Task
deriving DecidableEq

/-- Embedding of the `list_tasks` handler: select all rows of `tasks` and
fold them into a string, `|s, t| s + "\n" + &t.task`. -/
def list_tasks (table : TasksTable) : String :=
  table.rows.foldl (fun s t => s ++ "\n" ++ t.task) ""

/-- Embedding of the `create_task` handler: insert one row whose `task`
column is the request body, and respond `"ok"`. -/
def create_task (table : TasksTable) (body : String) : TasksTable × String :=
  ({ nextId := table.nextId + 1, rows := table.rows ++ [⟨table.nextId, body⟩] }, "ok")

/-- Shifting the accumulator out of the `list_tasks` fold. -/
theorem foldl_append_shift (rows : List Task) (s : String) :
    rows.foldl (fun a t => a ++ "\n" ++ t.task) s
      = s ++ rows.foldl (fun a t => a ++ "\n" ++ t.task) "" := by
  induction rows generalizing s with
  | nil => simp [List.foldl]
  | cons r rs ih =>
    simp only [List.foldl]
    rw [ih (s ++ "\n" ++ r.task), ih ("" ++ "\n" ++ r.task)]
    simp [String.append_assoc]

/-- Shifting the accumulator out of the `String.join` fold. -/
theorem join_foldl_shift (l : List String) (s : String) :
    l.foldl (fun a t => a ++ t) s = s ++ l.foldl (fun a t => a ++ t) "" := by
  induction l generalizing s with
  | nil => simp [List.foldl]
  | cons r rs ih =>
    simp only [List.foldl]
    rw [ih (s ++ r), ih ("" ++ r)]
    simp [String.append_assoc]

/-- The `list_tasks` fold equals joining `"\n" ++ task` for each row. -/
theorem list_tasks_eq_join (rows : List Task) :
    rows.foldl (fun s t => s ++ "\n" ++ t.task) ""
      = String.join (rows.map (fun r => "\n" ++ r.task)) := by
  induction rows with
  | nil => rfl
  | cons r rs ih =>
    simp only [List.foldl, List.map, String.join]
    rw [foldl_append_shift rs, join_foldl_shift (rs.map fun r => "\n" ++ r.task), ih]
    simp [String.join]

/-- C9: `list_tasks` returns the fold over the stored tasks in load order,
appending `"\n"` then the task text for each row; it returns the empty string
when there are no tasks, and for a non-empty table its output begins with a
newline. -/
theorem C9_list_tasks_fold (table : TasksTable) :
    list_tasks table = String.join (table.rows.map (fun r => "\n" ++ r.task))
    ∧ (table.rows = [] → list_tasks table = "")
    ∧ (∀ r rs, table.rows = r :: rs → ∃ rest, list_tasks table = "\n" ++ rest) := by
  refine ⟨list_tasks_eq_join table.rows, fun h => by simp [list_tasks, h], ?_⟩
  intro r rs h
  refine ⟨r.task ++ rs.foldl (fun s t => s ++ "\n" ++ t.task) "", ?_⟩
  simp only [list_tasks, h, List.foldl]
  rw [foldl_append_shift rs]
  simp [String.append_assoc]

/-- Witness for C9 at a concrete one-row table. -/
theorem C9_list_tasks_fold_witness :
    ∃ rest, list_tasks ⟨1, [⟨0, "hello"⟩]⟩ = "\n" ++ rest :=
  (C9_list_tasks_fold ⟨1, [⟨0, "hello"⟩]⟩).2.2 ⟨0, "hello"⟩ [] rfl

/-- C10: a successful `create_task` call appends exactly one row whose `task`
column is the request body verbatim, leaves every pre-existing row unchanged,
and returns the string `"ok"`. -/
theorem C10_create_task_inserts_one (table : TasksTable) (body : String) :
    (create_task table body).2 = "ok"
    ∧ (create_task table body).1.rows.length = table.rows.length + 1
    ∧ (create_task table body).1.rows.take table.rows.length = table.rows
    ∧ (create_task table body).1.rows.getLast? = some ⟨table.nextId, body⟩
    ∧ ((create_task table body).1.rows.getLast?).map Task.task = some body := by
  refine ⟨rfl, by simp [create_task], ?_, ?_, ?_⟩
  · simp [create_task, List.take_left]
  · simp [create_task]
  · simp [create_task]

/-! ## Resource Allocator (spec §4.1)

The provisioner core is not among the visible sources; the definitions below
are modelled from the spec. -/

/-- Modelled from the spec: an `Allocation` is `{ port, scratch directory
path }`; the directory is named by a collision-free unique token (monotonic
id). -/
structure Allocation where
  port : Nat
  dir : Nat
deriving DecidableEq

/-- Modelled from the spec: the Allocator's state — the allocations held by
live Instances, and the monotonic counter producing fresh directory tokens. -/
structure AllocState where
  live : List Allocation
  nextDir : Nat
deriving DecidableEq

/-- Modelled from the spec: allocation errors — `ResourceExhausted` when no
free port is found within a bounded number of attempts. -/
inductive AllocError where
  | resourceExhausted
deriving DecidableEq

/-- Modelled from the spec: probe ports starting at `base` for at most
`attempts` candidates, returning the first one no live Instance holds
(reserve-by-bind: a port already bound is skipped). -/
def findFreePort (used : List Nat) : Nat → Nat → Option Nat
  | _, 0 => none
  | base, attempts + 1 =>
    if base ∈ used then findFreePort used (base + 1) attempts else some base

/-- Modelled from the spec: `allocate()` reserves a free port within a
bounded number of attempts and a scratch directory named by a fresh token;
fails with `ResourceExhausted` when no free port is found. -/
def allocate (s : AllocState) (base attempts : Nat) :
    Except AllocError (Allocation × AllocState) :=
  match findFreePort (s.live.map Allocation.port) base attempts with
  | none => .error .resourceExhausted
  | some p =>
    .ok (⟨p, s.nextDir⟩, ⟨⟨p, s.nextDir⟩ :: s.live, s.nextDir + 1⟩)

/-- Modelled from the spec: `release(Allocation)` returns the resources to
the free pool; it is total (never an error). -/
def releaseAlloc (s : AllocState) (a : Allocation) : AllocState :=
  ⟨s.live.filter (fun b => b ≠ a), s.nextDir⟩

/-- The allocator invariant: live allocations have pairwise distinct ports
and pairwise distinct (hence non-overlapping) scratch directories, and every
live directory token is below the fresh counter. -/
def AllocInv (s : AllocState) : Prop :=
  s.live.Pairwise (fun a b => a.port ≠ b.port ∧ a.dir ≠ b.dir)
    ∧ ∀ a ∈ s.live, a.dir < s.nextDir

instance (s : AllocState) : Decidable (AllocInv s) := by
  unfold AllocInv
  exact instDecidableAnd

/-- A port returned by `findFreePort` is not in the used list. -/
theorem findFreePort_not_used (used : List Nat) :
    ∀ base attempts p, findFreePort used base attempts = some p → p ∉ used := by
  intro base attempts
  induction attempts generalizing base with
  | zero => intro p h; simp [findFreePort] at h
  | succ n ih =>
    intro p h
    by_cases hb : base ∈ used
    · exact ih (base + 1) p (by simpa [findFreePort, hb] using h)
    · simp [findFreePort, hb] at h
      exact h ▸ hb

/-- Allocation preserves the allocator invariant. -/
theorem allocate_preserves_inv (s : AllocState) (base attempts : Nat)
    (hInv : AllocInv s) :
    ∀ a s', allocate s base attempts = .ok (a, s') → AllocInv s' ∧ a ∈ s'.live := by
  intro a s' h
  unfold allocate at h
  rcases hp : findFreePort (s.live.map Allocation.port) base attempts with _ | p
  · rw [hp] at h; exact absurd h (by simp)
  · rw [hp] at h
    have hfree := findFreePort_not_used (s.live.map Allocation.port) base attempts p hp
    injection h with h'
    injection h' with ha hs
    subst ha; subst hs
    refine ⟨⟨List.pairwise_cons.mpr ⟨?_, hInv.1⟩, ?_⟩, List.mem_cons_self _ _⟩
    · intro b hb
      constructor
      · intro hcontra
        apply hfree
        have hpb : p = b.port := hcontra
        rw [hpb]
        exact List.mem_map_of_mem Allocation.port hb
      · intro hd
        have hdb : s.nextDir = b.dir := hd
        exact Nat.lt_irrefl _ (hdb ▸ hInv.2 b hb)
    · intro b hb
      rcases List.mem_cons.mp hb with hb | hb
      · simp [hb]
      · exact Nat.lt_succ_of_lt (hInv.2 b hb)

/-- Release preserves the allocator invariant. -/
theorem releaseAlloc_preserves_inv (s : AllocState) (a : Allocation)
    (hInv : AllocInv s) : AllocInv (releaseAlloc s a) := by
  refine ⟨hInv.1.sublist (List.filter_sublist s.live), ?_⟩
  intro b hb
  exact hInv.2 b (List.mem_of_mem_filter hb)

/-- C1: live allocations always have pairwise distinct ports and pairwise
distinct (non-overlapping) scratch directories: the invariant holds of every
state reachable by `allocate` and `releaseAlloc`, and states satisfying it
have the pairwise-distinctness the claim asks for. -/
theorem C1_ports_dirs_distinct (s : AllocState) (base attempts : Nat)
    (a' : Allocation) (hInv : AllocInv s) :
    (∀ a s', allocate s base attempts = .ok (a, s') →
        s'.live.Pairwise (fun x y => x.port ≠ y.port ∧ x.dir ≠ y.dir) ∧ AllocInv s')
    ∧ (releaseAlloc s a').live.Pairwise (fun x y => x.port ≠ y.port ∧ x.dir ≠ y.dir)
    ∧ AllocInv (releaseAlloc s a')
    ∧ s.live.Pairwise (fun x y => x.port ≠ y.port ∧ x.dir ≠ y.dir) := by
  refine ⟨?_, (releaseAlloc_preserves_inv s a' hInv).1,
    releaseAlloc_preserves_inv s a' hInv, hInv.1⟩
  intro a s' h
  exact ⟨(allocate_preserves_inv s base attempts hInv a s' h).1.1,
    (allocate_preserves_inv s base attempts hInv a s' h).1⟩

/-- Witness for C1 at a concrete allocator state. -/
theorem C1_ports_dirs_distinct_witness :
    AllocInv ⟨[⟨5432, 0⟩], 1⟩
      ∧ (releaseAlloc ⟨[⟨5432, 0⟩], 1⟩ ⟨5432, 0⟩).live.Pairwise
          (fun x y => x.port ≠ y.port ∧ x.dir ≠ y.dir) :=
  ⟨by decide, (C1_ports_dirs_distinct ⟨[⟨5432, 0⟩], 1⟩ 5432 3 ⟨5432, 0⟩
    (by decide)).2.1⟩

/-! ## Readiness Prober and instance lifecycle (spec §3, §4.4, §5) -/

/-- Modelled from the spec: the transient Readiness State,
`{starting, ready, failed, timed-out}`. -/
inductive ReadinessState where
  | starting
  | ready
  | failed
  | timedOut
deriving DecidableEq

/-- Modelled from the spec: typed provisioning failures (§7); only the
readiness-timeout branch is needed here. -/
inductive ProvisionError where
  | timedOut
deriving DecidableEq

/-- Modelled from the spec: the Instance Handle returned to the caller —
port, scratch directory, server process id and lifecycle state. -/
structure InstanceHandle where
  port : Nat
  dir : Nat
  pid : Nat
  state : ReadinessState
deriving DecidableEq

/-- First poll tick in `[t, t + fuel)` at which the predicate holds. -/
def firstTick (f : Nat → Bool) : Nat → Nat → Option Nat
  | _, 0 => none
  | t, fuel + 1 => if f t then some t else firstTick f (t + 1) fuel

/-- Modelled from the spec: `wait_ready(endpoint, timeout)` polls the server
at a fixed short interval (ticks `0, 1, …`) until it accepts a connection or
the timeout elapses; `none` is the `TimedOut` failure. -/
def wait_ready (accepts : Nat → Bool) (timeout : Nat) : Option Nat :=
  firstTick accepts 0 timeout

/-- Modelled from the spec: the behaviour of a freshly launched server
process: its pid and, per poll tick, whether it accepts a connection. -/
structure ServerSpec where
  pid : Nat
  acceptsAt : Nat → Bool

/-- Modelled from the spec: what a `new_instance` call leaves behind — the
result returned to the caller, the Instance's final lifecycle state, and the
`(pid, port)` pairs of server processes still running. -/
structure ProvisionOutcome where
  result : Except ProvisionError InstanceHandle
  instState : ReadinessState
  running : List (Nat × Nat)

/-- Modelled from the spec: `new_instance` — the server is started, the
prober waits for readiness; on success the Instance becomes `ready` and its
handle is returned, on timeout the Instance becomes `timed-out` and the
half-started process is torn down before the error is returned. -/
def new_instance (srv : ServerSpec) (alloc : Allocation) (timeout : Nat) :
    ProvisionOutcome :=
  match wait_ready srv.acceptsAt timeout with
  | some _ =>
    { result := .ok ⟨alloc.port, alloc.dir, srv.pid, .ready⟩
      instState := .ready
      running := [(srv.pid, alloc.port)] }
  | none =>
    { result := .error .timedOut
      instState := .timedOut
      running := [] }

/-- Modelled from the spec (§6): the connection endpoint string,
`scheme://credentials@loopback:port`. -/
def connection_uri (h : InstanceHandle) : String :=
  "postgresql://postgres@localhost:" ++ toString h.port

/-- Modelled from the spec: the endpoint of a handle accepts a connection
exactly when the handle reached `ready` and its server process is still
running on the handle's port. -/
def acceptsConn (running : List (Nat × Nat)) (h : InstanceHandle) : Bool :=
  (h.state == .ready) && running.any (fun s => s.1 == h.pid && s.2 == h.port)

/-- Modelled from the spec: `release()` tears down the handle's server
process, removing it from the running set. -/
def releaseWorld (running : List (Nat × Nat)) (h : InstanceHandle) :
    List (Nat × Nat) :=
  running.filter (fun s => s.1 ≠ h.pid)

/-- Modelled from the spec: the full release path — the Server Process
Manager stops the process, then the Allocator reclaims port and directory. -/
def releaseInstance (running : List (Nat × Nat)) (s : AllocState)
    (h : InstanceHandle) : List (Nat × Nat) × AllocState :=
  (releaseWorld running h, releaseAlloc s ⟨h.port, h.dir⟩)

/-- A successful probe happened before the timeout, at an accepting tick. -/
theorem firstTick_some (f : Nat → Bool) :
    ∀ start fuel t, firstTick f start fuel = some t →
      f t = true ∧ start ≤ t ∧ t < start + fuel := by
  intro start fuel
  induction fuel generalizing start with
  | zero => intro t h; simp [firstTick] at h
  | succ n ih =>
    intro t h
    by_cases hf : f start
    · simp [firstTick, hf] at h
      subst h
      exact ⟨hf, Nat.le_refl _, Nat.lt_of_lt_of_le (Nat.lt_succ_self _)
        (by omega)⟩
    · simp [firstTick, hf] at h
      obtain ⟨h1, h2, h3⟩ := ih (start + 1) t h
      exact ⟨h1, by omega, by omega⟩

/-- A failed probe means no tick before the timeout accepted. -/
theorem firstTick_none (f : Nat → Bool) :
    ∀ start fuel, firstTick f start fuel = none →
      ∀ t, start ≤ t → t < start + fuel → f t = false := by
  intro start fuel
  induction fuel generalizing start with
  | zero => intro _ t h1 h2; omega
  | succ n ih =>
    intro h t h1 h2
    by_cases hf : f start
    · simp [firstTick, hf] at h
    · simp [firstTick, hf] at h
      rcases Nat.eq_or_lt_of_le h1 with he | hl
      · exact he ▸ (by simpa using hf)
      · exact ih (start + 1) h t hl (by omega)

/-- C2: when the readiness probe does not succeed within the timeout,
`new_instance` returns the timeout error with the Instance in the `timed-out`
state and no process left running (no orphan); and a `ready` handle is only
ever returned when the server accepted a connection before the timeout. -/
theorem C2_timeout_teardown (srv : ServerSpec) (alloc : Allocation)
    (timeout : Nat) :
    (wait_ready srv.acceptsAt timeout = none →
        (new_instance srv alloc timeout).result = .error .timedOut
        ∧ (new_instance srv alloc timeout).instState = .timedOut
        ∧ (new_instance srv alloc timeout).running = [])
    ∧ (∀ h, (new_instance srv alloc timeout).result = .ok h →
        h.state = .ready ∧ ∃ t, t < timeout ∧ srv.acceptsAt t = true) := by
  constructor
  · intro hw
    simp [new_instance, hw]
  · intro h hok
    unfold new_instance at hok
    rcases hw : wait_ready srv.acceptsAt timeout with _ | t
    · rw [hw] at hok
      exact absurd hok (by simp)
    · rw [hw] at hok
      simp only [Except.ok.injEq] at hok
      obtain ⟨hf, _, hlt⟩ := firstTick_some srv.acceptsAt 0 timeout t hw
      subst hok
      exact ⟨rfl, ⟨t, by omega, hf⟩⟩

/-- Witness for C2: a server that never accepts, probed with timeout 2. -/
theorem C2_timeout_teardown_witness :
    (new_instance ⟨7, fun _ => false⟩ ⟨5432, 0⟩ 2).result = .error .timedOut
    ∧ (new_instance ⟨7, fun _ => false⟩ ⟨5432, 0⟩ 2).instState = .timedOut
    ∧ (new_instance ⟨7, fun _ => false⟩ ⟨5432, 0⟩ 2).running = [] :=
  (C2_timeout_teardown ⟨7, fun _ => false⟩ ⟨5432, 0⟩ 2).1 rfl

/-- C3: a handle returned by a successful `new_instance` reports the
allocated port in `connection_uri`, its endpoint accepts a connection
immediately, is refused after `release()` completes, and the handle is
`ready` (in particular never `starting`). -/
theorem C3_endpoint_usability (srv : ServerSpec) (alloc : Allocation)
    (timeout : Nat) :
    ∀ h, (new_instance srv alloc timeout).result = .ok h →
      connection_uri h = "postgresql://postgres@localhost:" ++ toString alloc.port
      ∧ acceptsConn (new_instance srv alloc timeout).running h = true
      ∧ acceptsConn (releaseWorld (new_instance srv alloc timeout).running h) h
          = false
      ∧ h.state = .ready
      ∧ h.state ≠ .starting := by
  intro h hok
  unfold new_instance at hok ⊢
  rcases hw : wait_ready srv.acceptsAt timeout with _ | t
  · rw [hw] at hok
    exact absurd hok (by simp)
  · rw [hw] at hok
    simp only [Except.ok.injEq] at hok
    subst hok
    refine ⟨rfl, ?_, ?_, rfl, by simp⟩
    · simp [acceptsConn]
    · simp [acceptsConn, releaseWorld]

/-- Witness for C3: a server accepting from tick 0, probed with timeout 1. -/
theorem C3_endpoint_usability_witness :
    acceptsConn (new_instance ⟨7, fun _ => true⟩ ⟨5432, 0⟩ 1).running
        ⟨5432, 0, 7, .ready⟩ = true :=
  ((C3_endpoint_usability ⟨7, fun _ => true⟩ ⟨5432, 0⟩ 1)
    ⟨5432, 0, 7, .ready⟩ rfl).2.1

/-- C4: release is idempotent — releasing an Allocation, a handle's process,
or a whole Instance a second time is a no-op leaving the state of the first
release, and release is total (it has no error outcome). -/
theorem C4_release_idempotent (rs : List (Nat × Nat)) (s : AllocState)
    (a : Allocation) (h : InstanceHandle) :
    releaseAlloc (releaseAlloc s a) a = releaseAlloc s a
    ∧ releaseWorld (releaseWorld rs h) h = releaseWorld rs h
    ∧ releaseInstance (releaseInstance rs s h).1 (releaseInstance rs s h).2 h
        = releaseInstance rs s h := by
  have h1 : releaseAlloc (releaseAlloc s a) a = releaseAlloc s a := by
    simp [releaseAlloc, List.filter_filter]
  have h2 : releaseWorld (releaseWorld rs h) h = releaseWorld rs h := by
    simp [releaseWorld, List.filter_filter]
  refine ⟨h1, h2, ?_⟩
  simp only [releaseInstance]
  rw [show releaseWorld (releaseWorld rs h) h = releaseWorld rs h from h2]
  rw [show releaseAlloc (releaseAlloc s ⟨h.port, h.dir⟩) ⟨h.port, h.dir⟩
      = releaseAlloc s ⟨h.port, h.dir⟩ from by
    simp [releaseAlloc, List.filter_filter]]

/-! ## Server Process Manager (spec §4.3) -/

/-- Modelled from the spec: a server process as `stop` sees it — its pid,
whether it has already exited, and, after the graceful termination signal is
sent at tick 0, whether it has exited by tick `t`. -/
structure ServerProcess where
  pid : Nat
  alreadyExited : Bool
  exitsBy : Nat → Bool

/-- Modelled from the spec: what `stop` reports — ticks spent waiting,
whether the force-kill was needed, and whether the process is still running
afterwards.  `stop` has no error outcome. -/
structure StopResult where
  ticksWaited : Nat
  forcedKill : Bool
  runningAfter : Bool
deriving DecidableEq

/-- Modelled from the spec: `stop` sends a graceful termination signal,
waits up to the bounded grace period for exit, then force-kills; on an
already-exited process it completes immediately without error. -/
def stop (p : ServerProcess) (grace : Nat) : StopResult :=
  if p.alreadyExited then ⟨0, false, false⟩
  else
    match firstTick p.exitsBy 0 (grace + 1) with
    | some t => ⟨t, false, false⟩
    | none => ⟨grace, true, false⟩

/-- C5: `stop` terminates within the bounded grace period, always leaves the
process not running, completes without error (and immediately) on an
already-exited process, skips the force-kill exactly when the process exited
by itself within the grace period, and force-kills only a process that never
exited gracefully. -/
theorem C5_stop_bounded (p : ServerProcess) (grace : Nat) :
    (stop p grace).ticksWaited ≤ grace
    ∧ (stop p grace).runningAfter = false
    ∧ (p.alreadyExited = true → stop p grace = ⟨0, false, false⟩)
    ∧ ((stop p grace).forcedKill = true →
        p.alreadyExited = false ∧ ∀ t, t ≤ grace → p.exitsBy t = false) := by
  by_cases he : p.alreadyExited
  · refine ⟨?_, ?_, fun _ => ?_, fun hf => ?_⟩
    · simp [stop, he]
    · simp [stop, he]
    · simp [stop, he]
    · rw [show (stop p grace).forcedKill = false from by simp [stop, he]] at hf
      exact absurd hf (by simp)
  · rcases hw : firstTick p.exitsBy 0 (grace + 1) with _ | t
    · refine ⟨?_, ?_, fun hcontra => absurd hcontra (by simp [he]), fun _ => ?_⟩
      · simp [stop, he, hw]
      · simp [stop, he, hw]
      · refine ⟨by simp [he], fun t ht => ?_⟩
        exact firstTick_none p.exitsBy 0 (grace + 1) hw t (Nat.zero_le t)
          (by omega)
    · obtain ⟨_, _, hlt⟩ := firstTick_some p.exitsBy 0 (grace + 1) t hw
      refine ⟨?_, ?_, fun hcontra => absurd hcontra (by simp [he]), fun hf => ?_⟩
      · rw [show (stop p grace).ticksWaited = t from by simp [stop, he, hw]]
        omega
      · simp [stop, he, hw]
      · rw [show (stop p grace).forcedKill = false from by
          simp [stop, he, hw]] at hf
        exact absurd hf (by simp)

/-- Witness for C5: stopping an already-exited process. -/
theorem C5_stop_bounded_witness :
    stop ⟨7, true, fun _ => true⟩ 3 = ⟨0, false, false⟩ :=
  (C5_stop_bounded ⟨7, true, fun _ => true⟩ 3).2.2.1 rfl

/-! ## Teardown ordering (spec §5) -/

/-- Modelled from the spec: the observable steps of Instance teardown. -/
inductive TeardownEvent where
  | stopProcess (pid : Nat)
  | releasePort (port : Nat)
  | releaseDir (dir : Nat)
deriving DecidableEq

/-- Modelled from the spec: the teardown trace of an Instance — the Server
Process Manager stops the process, then the Allocator/Initializer release
the port and the directory. -/
def teardown (h : InstanceHandle) : List TeardownEvent :=
  [.stopProcess h.pid, .releasePort h.port, .releaseDir h.dir]

/-- C6: in every teardown trace, any release of the port or of the directory
is strictly preceded by the stop of the Instance's server process, so the
resources are never recycled while the old process might still hold them. -/
theorem C6_stop_before_release (h : InstanceHandle) (j : Nat)
    (e : TeardownEvent) (hget : (teardown h).get? j = some e)
    (hrel : e = .releasePort h.port ∨ e = .releaseDir h.dir) :
    ∃ i, i < j ∧ (teardown h).get? i = some (.stopProcess h.pid) := by
  match j with
  | 0 =>
    simp [teardown] at hget
    rcases hrel with hrel | hrel <;> simp [← hget] at hrel
  | 1 => exact ⟨0, Nat.zero_lt_one, rfl⟩
  | 2 => exact ⟨0, by omega, rfl⟩
  | n + 3 => simp [teardown] at hget

/-- Witness for C6: the port release in a concrete teardown trace. -/
theorem C6_stop_before_release_witness :
    ∃ i, i < 1 ∧ (teardown ⟨5432, 0, 7, .ready⟩).get? i
      = some (.stopProcess 7) :=
  C6_stop_before_release ⟨5432, 0, 7, .ready⟩ 1 (.releasePort 5432) rfl
    (Or.inl rfl)

/-! ## Template cache single-flight (spec §4.2, §9) -/

/-- Modelled from the spec: the process-wide template cache — the "build
result" shared value (at most one validated template), whether a build is in
flight under the mutex, and how many builds have been started. -/
structure TemplateCache where
  cache : Option Nat
  inFlight : Bool
  builds : Nat
deriving DecidableEq

/-- Modelled from the spec: the transitions of the guarded cache.  A caller
holding the mutex starts the single build only when no template exists and
no build is in flight; the build completes by publishing the shared result;
later callers read the cached template and change nothing (concurrent
callers that find a build in flight wait, which changes no state). -/
inductive CacheStep : TemplateCache → TemplateCache → Prop where
  | startBuild (s : TemplateCache) (h1 : s.cache = none)
      (h2 : s.inFlight = false) :
      CacheStep s ⟨none, true, s.builds + 1⟩
  | finishBuild (s : TemplateCache) (tpl : Nat) (h : s.inFlight = true) :
      CacheStep s ⟨some tpl, false, s.builds⟩
  | readCached (s : TemplateCache) (tpl : Nat) (h : s.cache = some tpl) :
      CacheStep s s

/-- The cache states reachable from process start. -/
inductive CacheReachable : TemplateCache → Prop where
  | init : CacheReachable ⟨none, false, 0⟩
  | step {s s' : TemplateCache} (hr : CacheReachable s)
      (hs : CacheStep s s') : CacheReachable s'

/-- The single-flight invariant: the build counter is 1 exactly when a build
ran (in flight or published), and a published template excludes an in-flight
build. -/
def CacheInv (s : TemplateCache) : Prop :=
  s.builds = (if s.inFlight || s.cache.isSome then 1 else 0)
    ∧ ¬(s.inFlight = true ∧ s.cache.isSome = true)

/-- Every reachable cache state satisfies the single-flight invariant. -/
theorem cacheReachable_inv (s : TemplateCache) (hr : CacheReachable s) :
    CacheInv s := by
  induction hr with
  | init => exact ⟨rfl, by simp⟩
  | @step s0 s1 hr hs ih =>
    cases hs with
    | startBuild h1 h2 =>
      refine ⟨?_, by simp⟩
      have := ih.1
      simp [h1, h2] at this
      simp [this]
    | finishBuild tpl h =>
      have hnone : s0.cache.isSome = false := by
        by_cases hc : s0.cache.isSome
        · exact absurd ⟨h, hc⟩ ih.2
        · simpa using hc
      refine ⟨?_, by simp⟩
      have := ih.1
      simp [h] at this
      simp [this]
    | readCached tpl h => exact ih

/-- C7: the cache holds at most one validated template (the shared `cache`
slot), the template build runs at most once per process — every reachable
state has `builds ≤ 1` — and once the single build has published its result
every later step leaves that same shared result in place, so all callers
share it. -/
theorem C7_single_flight (s s' : TemplateCache) (tpl : Nat)
    (hr : CacheReachable s) :
    s.builds ≤ 1
    ∧ (s.cache = some tpl → CacheStep s s' → s'.cache = some tpl)
    ∧ (s.cache = some tpl → s.inFlight = false) := by
  have hinv := cacheReachable_inv s hr
  refine ⟨?_, ?_, ?_⟩
  · rw [hinv.1]
    by_cases h : s.inFlight || s.cache.isSome <;> simp [h]
  · intro hc hs
    cases hs with
    | startBuild h1 h2 => rw [h1] at hc; exact absurd hc (by simp)
    | finishBuild t h =>
      exact absurd ⟨h, by simp [hc]⟩ hinv.2
    | readCached t h => exact hc
  · intro hc
    by_cases hf : s.inFlight
    · exact absurd ⟨hf, by simp [hc]⟩ hinv.2
    · simpa using hf

/-- Witness for C7: the state after one completed build. -/
theorem C7_single_flight_witness :
    TemplateCache.builds ⟨some 42, false, 1⟩ ≤ 1
    ∧ TemplateCache.inFlight ⟨some 42, false, 1⟩ = false :=
  ⟨(C7_single_flight ⟨some 42, false, 1⟩ ⟨some 42, false, 1⟩ 42
      (CacheReachable.step (CacheReachable.step CacheReachable.init
        (CacheStep.startBuild ⟨none, false, 0⟩ rfl rfl))
        (CacheStep.finishBuild ⟨none, true, 1⟩ 42 rfl))).1,
   (C7_single_flight ⟨some 42, false, 1⟩ ⟨some 42, false, 1⟩ 42
      (CacheReachable.step (CacheReachable.step CacheReachable.init
        (CacheStep.startBuild ⟨none, false, 0⟩ rfl rfl))
        (CacheStep.finishBuild ⟨none, true, 1⟩ 42 rfl))).2.2 rfl⟩

/-! ## Logical-database isolation in single mode (spec §3, §4.5, §8) -/

/-- Modelled from the spec: the contents of the shared Instance in single
mode — for each Logical Database name, the rows stored in it. -/
def DbState := String → List String

/-- Modelled from the spec: a write issued against one Logical Database of
the shared Instance. -/
structure WriteOp where
  db : String
  row : String

/-- Modelled from the spec: a write appends a row to the named Logical
Database and touches no other. -/
def writeRow (st : DbState) (db row : String) : DbState :=
  fun name => if name = db then st name ++ [row] else st name

/-- Modelled from the spec: an arbitrary interleaving of writes against the
shared Instance, applied in order. -/
def applyOps (st : DbState) (ops : List WriteOp) : DbState :=
  ops.foldl (fun st op => writeRow st op.db op.row) st

/-- Modelled from the spec: a read against one Logical Database. -/
def readDb (st : DbState) (db : String) : List String := st db

/-- A read of one Logical Database depends only on that database's rows. -/
theorem applyOps_congr_key (a : String) :
    ∀ (ops : List WriteOp) (st₁ st₂ : DbState), st₁ a = st₂ a →
      readDb (applyOps st₁ ops) a = readDb (applyOps st₂ ops) a := by
  intro ops
  induction ops with
  | nil => intro st₁ st₂ h; exact h
  | cons op rest ih =>
    intro st₁ st₂ h
    simp only [applyOps, List.foldl]
    refine ih (writeRow st₁ op.db op.row) (writeRow st₂ op.db op.row) ?_
    unfold writeRow
    by_cases hk : a = op.db
    · subst hk
      simp [h]
    · simp [hk, h]

/-- C8: in single mode, each Logical Database's reads observe exactly the
writes addressed to it: for any interleaved write sequence against the
shared Instance, reading a database gives the same rows as if only its own
writes had run; in particular a write to a different database leaves its
rows unchanged. -/
theorem C8_no_cross_contamination (st : DbState) (ops : List WriteOp)
    (a b row : String) (hab : b ≠ a) :
    readDb (applyOps st ops) a
      = readDb (applyOps st (ops.filter (fun op => op.db == a))) a
    ∧ readDb (writeRow st b row) a = readDb st a := by
  constructor
  · induction ops generalizing st with
    | nil => rfl
    | cons op rest ih =>
      by_cases hop : op.db = a
      · have hfilter : (op :: rest).filter (fun op => op.db == a)
            = op :: rest.filter (fun op => op.db == a) := by
          simp [List.filter, hop]
        rw [hfilter]
        simpa only [applyOps, List.foldl] using ih (writeRow st op.db op.row)
      · have hfilter : (op :: rest).filter (fun op => op.db == a)
            = rest.filter (fun op => op.db == a) := by
          have hbeq : (op.db == a) = false := by simp [hop]
          simp [List.filter_cons, hbeq]
        rw [hfilter]
        have hkey : (writeRow st op.db op.row) a = st a := by
          have hne : a ≠ op.db := fun hh => hop hh.symm
          simp [writeRow, hne]
        calc readDb (applyOps st (op :: rest)) a
            = readDb (applyOps (writeRow st op.db op.row) rest) a := rfl
          _ = readDb (applyOps (writeRow st op.db op.row)
                (rest.filter (fun op => op.db == a))) a :=
              ih (writeRow st op.db op.row)
          _ = readDb (applyOps st (rest.filter (fun op => op.db == a))) a :=
              applyOps_congr_key a _ _ _ hkey
  · have hne : a ≠ b := fun hh => hab hh.symm
    simp [readDb, writeRow, hne]

/-- Witness for C8: two databases, one write each; `db2` sees only its own
row. -/
theorem C8_no_cross_contamination_witness :
    readDb (writeRow (fun _ => []) "db1" "x") "db2"
      = readDb (fun _ => ([] : List String)) "db2" :=
  (C8_no_cross_contamination (fun _ => []) [] "db2" "db1" "x"
    (by decide)).2

end Pgtemp
